import Mathlib

/-!
# go-relateiq: a shallow embedding of the client library

The package `relateiq` (files `relateiq.go`, `accounts.go`) is embedded as
pure Lean functions.  Go values are modelled as follows.

* `int64` is an `Int`; where Go arithmetic can overflow the result is
  reduced with `wrap64`.
* Text handled by `strconv` (number literals) is a `String`, processed as
  its list of characters.  The string fields of an `Account` are byte
  sequences (`GoString`), as Go strings are; other strings stand for the text
  they hold.
* A byte sequence handed to `encoding/json` is modelled by what the scanner
  of that package makes of it: either no well-formed JSON text, or the JSON
  value it denotes (`JSON`).  Number tokens keep their literal text.
* A pointer is an `Option` (`none` is the nil pointer); dereferencing a nil
  pointer is the outcome `Outcome.panicked`.
-/

namespace Relateiq

/-! ## Results -/

/-- Equality of results is decidable when it is for errors and values. -/
instance instDecidableEqExcept {ε α : Type} [DecidableEq ε] [DecidableEq α] :
    DecidableEq (Except ε α)
  | .ok a, .ok b => if h : a = b then isTrue (by rw [h]) else isFalse (fun e => h (by cases e; rfl))
  | .error a, .error b =>
    if h : a = b then isTrue (by rw [h]) else isFalse (fun e => h (by cases e; rfl))
  | .ok _, .error _ => isFalse (fun e => by cases e)
  | .error _, .ok _ => isFalse (fun e => by cases e)

/-! ## Machine integers -/

/-- Smallest `int64`. -/
def int64Min : Int := -9223372036854775808

/-- Largest `int64`. -/
def int64Max : Int := 9223372036854775807

/-- Two's complement reduction of an integer to the `int64` range: the value
Go keeps after an overflowing `int64` operation. -/
def wrap64 (x : Int) : Int :=
  (x + 9223372036854775808) % 18446744073709551616 - 9223372036854775808

/-! ## strconv -/

/-- The ASCII digit of `d` (for `d < 10`). -/
def digitChar (d : Nat) : Char := Char.ofNat (48 + d)

/-- Value of an ASCII decimal digit, `none` for any other character. -/
def digitVal (c : Char) : Option Nat :=
  if 48 ≤ c.toNat ∧ c.toNat ≤ 57 then some (c.toNat - 48) else none

/-- `strconv.formatBits` for base 10: the digits of `n` are pushed in front of
`acc`, least significant first.  `fuel` bounds the number of digits. -/
def formatBits : Nat → Nat → List Char → List Char
  | 0, _, acc => acc
  | fuel + 1, n, acc =>
    if n < 10 then digitChar n :: acc
    else formatBits fuel (n / 10) (digitChar (n % 10) :: acc)

/-- `strconv.FormatUint(n, 10)`. -/
def FormatUint (n : Nat) : List Char := formatBits (n + 1) n []

/-- `strconv.FormatInt(i, 10)`: the decimal text of `i`, which is also what
`json.Marshal` writes for an `int64`. -/
def FormatInt (i : Int) : String :=
  if i < 0 then String.mk ('-' :: FormatUint i.natAbs) else String.mk (FormatUint i.natAbs)

/-- The digit loop of `strconv.ParseUint(s, 10, 64)`: `none` on a character
that is not a decimal digit. -/
def parseDigits : List Char → Nat → Option Nat
  | [], acc => some acc
  | c :: cs, acc =>
    match digitVal c with
    | none => none
    | some d => parseDigits cs (acc * 10 + d)

/-- `strconv.ParseUint(s, 10, 64)`: `none` for the empty text, a non-digit, or
a value above `2^64 - 1`. -/
def ParseUint (s : List Char) : Option Nat :=
  match s with
  | [] => none
  | _ :: _ =>
    match parseDigits s 0 with
    | none => none
    | some n => if n ≤ 18446744073709551615 then some n else none

/-- `strconv.ParseInt(s, 10, 64)` on characters: an optional sign, then
`ParseUint`, then the range check against the cutoff `2^63`. -/
def parseIntChars (s : List Char) : Option Int :=
  match s with
  | [] => none
  | c :: cs =>
    if c = '+' then
      match ParseUint cs with
      | none => none
      | some un => if un ≥ 9223372036854775808 then none else some (Int.ofNat un)
    else if c = '-' then
      match ParseUint cs with
      | none => none
      | some un => if un > 9223372036854775808 then none else some (-(Int.ofNat un))
    else
      match ParseUint (c :: cs) with
      | none => none
      | some un => if un ≥ 9223372036854775808 then none else some (Int.ofNat un)

/-- `strconv.ParseInt(s, 10, 64)`; `none` stands for its `*NumError`. -/
def ParseInt (s : String) : Option Int := parseIntChars s.data

/-! ## encoding/json values -/

/-- A JSON value as the scanner of `encoding/json` delimits it.  A number keeps
the literal text of its token. -/
inductive JSON where
  | null : JSON
  | bool (b : Bool) : JSON
  | number (lit : String) : JSON
  | string (s : String) : JSON
  | array (xs : List JSON) : JSON
  | object (kvs : List (String × JSON)) : JSON

/-- Errors of `encoding/json`. -/
inductive JSONError where
  | syntaxError : JSONError
  | unmarshalTypeError : JSONError
  /-- The `io.EOF` of a `json.Decoder` on an empty input. -/
  | eof : JSONError
  deriving DecidableEq, Repr

/-- `json.Unmarshal(b, &msec)` for `var msec int64`, where `b` is the scanned
input (`none`: not a well-formed JSON text) and `msec` the value the variable
holds before the call.  A number token goes through `strconv.ParseInt`; `null`
leaves a non-pointer target unchanged and is no error; every other value is
an `UnmarshalTypeError`. -/
def jsonUnmarshalInt64 (b : Option JSON) (msec : Int) : Except JSONError Int :=
  match b with
  | none => .error .syntaxError
  | some .null => .ok msec
  | some (.number lit) =>
    match ParseInt lit with
    | some n => .ok n
    | none => .error .unmarshalTypeError
  | some (.bool _) => .error .unmarshalTypeError
  | some (.string _) => .error .unmarshalTypeError
  | some (.array _) => .error .unmarshalTypeError
  | some (.object _) => .error .unmarshalTypeError

/-! ## time -/

/-- The `*time.Location` of a `time.Time`, as far as this package
distinguishes: UTC or the local zone. -/
inductive Location where
  | UTC : Location
  | Local : Location
  deriving DecidableEq, Repr

/-- A `time.Time`: seconds since the Unix epoch, nanoseconds within that
second (`0 ≤ nsec < 10^9`) and the location. -/
structure GoTime where
  sec : Int
  nsec : Int
  loc : Location
  deriving DecidableEq, Repr

/-- `time.Unix(sec, nsec)`: a `nsec` outside `[0, 10^9)` is carried into the
seconds; Go's `/` on `int64` truncates toward zero (`Int.tdiv`). -/
def timeUnix (sec nsec : Int) : GoTime :=
  if nsec < 0 ∨ nsec ≥ 1000000000 then
    let n := Int.tdiv nsec 1000000000
    let sec1 := sec + n
    let nsec1 := nsec - n * 1000000000
    if nsec1 < 0 then { sec := sec1 - 1, nsec := nsec1 + 1000000000, loc := .Local }
    else { sec := sec1, nsec := nsec1, loc := .Local }
  else { sec := sec, nsec := nsec, loc := .Local }

/-- `t.In(loc)`. -/
def GoTime.In (t : GoTime) (loc : Location) : GoTime := { t with loc := loc }

/-- `t.UnixNano()`: `sec * 1e9 + nsec` in `int64` arithmetic. -/
def GoTime.UnixNano (t : GoTime) : Int := wrap64 (t.sec * 1000000000 + t.nsec)

/-- `time.Millisecond`, a `Duration` in nanoseconds. -/
def timeMillisecond : Int := 1000000

/-! ## accounts.go: the timestamp codec -/

/-- `type Time struct{ time.Time }`. -/
structure Time where
  time : GoTime
  deriving DecidableEq, Repr

/-- `Time.MarshalJSON`: `json.Marshal(t.UnixNano() / int64(time.Millisecond))`.
The error of `json.Marshal` on an `int64` is always nil. -/
def Time.MarshalJSON (t : Time) : Except JSONError String :=
  .ok (FormatInt (Int.tdiv t.time.UnixNano timeMillisecond))

/-- `(*Time).UnmarshalJSON`: decode `b` into `var msec int64`, then
`time.Unix(0, 1000000*msec).In(time.UTC)`.  The product is an `int64`
product. -/
def Time.UnmarshalJSON (b : Option JSON) : Except JSONError Time :=
  match jsonUnmarshalInt64 b 0 with
  | .error err => .error err
  | .ok msec => .ok { time := (timeUnix 0 (wrap64 (1000000 * msec))).In .UTC }

/-- The wire text consisting of the decimal text of `m`: one number token. -/
def decimalWire (m : Int) : Option JSON := some (.number (FormatInt m))

/-! ## Go strings and UTF-8 -/

/-- A Go `string`: a sequence of bytes, which need not be valid UTF-8. -/
abbrev GoString := List Nat

/-- The UTF-8 bytes of a character. -/
def utf8Bytes (c : Char) : List Nat :=
  let n := c.toNat
  if n < 128 then [n]
  else if n < 2048 then [192 + n / 64, 128 + n % 64]
  else if n < 65536 then [224 + n / 4096, 128 + (n / 64) % 64, 128 + n % 64]
  else [240 + n / 262144, 128 + (n / 4096) % 64, 128 + (n / 64) % 64, 128 + n % 64]

/-- The bytes of a text, `[]byte(s)`: its UTF-8 encoding. -/
def stringBytes (s : String) : GoString := s.data.flatMap utf8Bytes

/-- `utf8.DecodeRune`: the code point at the start of the bytes and the
number of bytes it takes.  Bytes that do not start a well-formed encoding
(a stray continuation byte, an overlong form, a surrogate, a value above
U+10FFFF, a truncated sequence) give `(RuneError, 1)`, with
`RuneError = U+FFFD = 65533`. -/
def decodeRune (bs : List Nat) : Nat × Nat :=
  match bs with
  | [] => (65533, 0)
  | b0 :: rest =>
    if b0 < 128 then (b0, 1)
    else if 194 ≤ b0 ∧ b0 ≤ 223 then
      match rest with
      | b1 :: _ =>
        if 128 ≤ b1 ∧ b1 ≤ 191 then ((b0 - 192) * 64 + (b1 - 128), 2) else (65533, 1)
      | [] => (65533, 1)
    else if 224 ≤ b0 ∧ b0 ≤ 239 then
      match rest with
      | b1 :: b2 :: _ =>
        if (if b0 = 224 then 160 else 128) ≤ b1 ∧ b1 ≤ (if b0 = 237 then 159 else 191)
            ∧ 128 ≤ b2 ∧ b2 ≤ 191 then
          ((b0 - 224) * 4096 + (b1 - 128) * 64 + (b2 - 128), 3)
        else (65533, 1)
      | _ => (65533, 1)
    else if 240 ≤ b0 ∧ b0 ≤ 244 then
      match rest with
      | b1 :: b2 :: b3 :: _ =>
        if (if b0 = 240 then 144 else 128) ≤ b1 ∧ b1 ≤ (if b0 = 244 then 143 else 191)
            ∧ 128 ≤ b2 ∧ b2 ≤ 191 ∧ 128 ≤ b3 ∧ b3 ≤ 191 then
          ((b0 - 240) * 262144 + (b1 - 128) * 4096 + (b2 - 128) * 64 + (b3 - 128), 4)
        else (65533, 1)
      | _ => (65533, 1)
    else (65533, 1)

/-- The text `encoding/json` writes for a Go string: the runes of the string
in order, where every byte that does not start a well-formed encoding is
replaced by U+FFFD.  `fuel` bounds the number of runes. -/
def toValidText : Nat → List Nat → List Char
  | 0, _ => []
  | fuel + 1, bs =>
    match bs with
    | [] => []
    | _ :: _ => Char.ofNat (decodeRune bs).1 :: toValidText fuel (bs.drop (decodeRune bs).2)

/-- The text that consists of U+FFFD, the replacement character. -/
def runeErrorText : String := String.mk [Char.ofNat 65533]

/-- The JSON string `json.Marshal` writes for a Go string. -/
def jsonStringOf (s : GoString) : JSON := .string (String.mk (toValidText s.length s))

/-! ## encoding/json: decoding into the structs of this package -/

/-- Simple case folding of a character against ASCII letters: upper case ASCII
folds to lower case, and the two non-ASCII characters whose fold orbit meets
the ASCII letters (U+017F long s, U+212A Kelvin sign) fold to `s` and `k`. -/
def foldChar (c : Char) : Char :=
  if c.toNat = 383 then 's'
  else if c.toNat = 8490 then 'k'
  else if 65 ≤ c.toNat ∧ c.toNat ≤ 90 then Char.ofNat (c.toNat + 32)
  else c

/-- Case-insensitive comparison of an object key with a field name, as the
decoder does it (`bytes.EqualFold` on an ASCII field name). -/
def equalFold (name key : String) : Bool :=
  name.data.map foldChar == key.data.map foldChar

/-- The struct field an object key selects: the field whose JSON name is the
key, otherwise the first field whose name equals the key under case
folding. -/
def findField (names : List String) (key : String) : Option String :=
  if names.contains key then some key
  else names.find? (fun n => equalFold n key)

/-- The state of a decoding run: the target value, the first type error
saved so far (`d.savedError`), and the error of an `Unmarshaler` that made
the run stop. -/
structure Decoded (α : Type) where
  value : α
  saved : Option JSONError
  aborted : Option JSONError

/-- `d.saveError`: only the first error is kept. -/
def saveError (saved : Option JSONError) (err : JSONError) : Option JSONError :=
  match saved with
  | some e => some e
  | none => some err

/-- The error `json.Unmarshal` returns at the end of a run. -/
def Decoded.err {α : Type} (d : Decoded α) : Option JSONError :=
  match d.aborted with
  | some e => some e
  | none => d.saved

/-- Decoding a JSON value into a Go `string`: a string is stored, `null` is
skipped, anything else is a type error and leaves the target as it is. -/
def storeString (v : JSON) (cur : String) : String × Option JSONError :=
  match v with
  | .string s => (s, none)
  | .null => (cur, none)
  | _ => (cur, some .unmarshalTypeError)

/-- Decoding a JSON value into a Go `string` kept as bytes: the UTF-8 bytes of
the JSON string are stored. -/
def storeGoString (v : JSON) (cur : GoString) : GoString × Option JSONError :=
  match v with
  | .string s => (stringBytes s, none)
  | .null => (cur, none)
  | _ => (cur, some .unmarshalTypeError)

/-- Decoding a JSON value into a Go `int` (64 bits). -/
def storeInt (v : JSON) (cur : Int) : Int × Option JSONError :=
  match v with
  | .number lit =>
    match ParseInt lit with
    | some n => (n, none)
    | none => (cur, some .unmarshalTypeError)
  | .null => (cur, none)
  | _ => (cur, some .unmarshalTypeError)

/-- `type Account struct`, with the JSON names `id`, `name`, `modifiedDate`.
The string fields are Go strings, that is byte sequences. -/
structure Account where
  ID : GoString
  Name : GoString
  ModifiedDate : Time
  deriving DecidableEq, Repr

/-- The zero `time.Time`: January 1, year 1, 00:00 UTC. -/
def zeroGoTime : GoTime := { sec := -62135596800, nsec := 0, loc := .UTC }

/-- The zero value of `Account`. -/
def zeroAccount : Account := { ID := [], Name := [], ModifiedDate := ⟨zeroGoTime⟩ }

/-- The JSON names of the fields of `Account`, in declaration order. -/
def accountFieldNames : List String := ["id", "name", "modifiedDate"]

/-- One key of a JSON object decoded into an `Account`.  `ModifiedDate`
implements `json.Unmarshaler`: its error stops the run. -/
def decodeAccountField (d : Decoded Account) (key : String) (v : JSON) : Decoded Account :=
  match d.aborted with
  | some _ => d
  | none =>
    match findField accountFieldNames key with
    | some "id" =>
      let r := storeGoString v d.value.ID
      { d with value := { d.value with ID := r.1 },
               saved := match r.2 with | some e => saveError d.saved e | none => d.saved }
    | some "name" =>
      let r := storeGoString v d.value.Name
      { d with value := { d.value with Name := r.1 },
               saved := match r.2 with | some e => saveError d.saved e | none => d.saved }
    | some "modifiedDate" =>
      match Time.UnmarshalJSON (some v) with
      | .ok t => { d with value := { d.value with ModifiedDate := t } }
      | .error e => { d with aborted := some e }
    | _ => d

/-- The keys of a JSON object decoded into an `Account`, in input order. -/
def decodeAccountFields (kvs : List (String × JSON)) (d : Decoded Account) : Decoded Account :=
  kvs.foldl (fun acc kv => decodeAccountField acc kv.1 kv.2) d

/-- A JSON value decoded into an `Account` that already holds `a`. -/
def decodeAccount (v : JSON) (d : Decoded Account) : Decoded Account :=
  match d.aborted with
  | some _ => d
  | none =>
    match v with
    | .object kvs => decodeAccountFields kvs d
    | .null => d
    | _ => { d with saved := saveError d.saved .unmarshalTypeError }

/-- `json.Unmarshal(b, &a)` for `a Account`: the value of `a` afterwards and
the error returned. -/
def jsonUnmarshalAccount (b : Option JSON) (a : Account) : Account × Option JSONError :=
  match b with
  | none => (a, some .syntaxError)
  | some v =>
    let d := decodeAccount v { value := a, saved := none, aborted := none }
    (d.value, d.err)

/-- `json.Marshal(a)` for `a Account`: the object with the fields in
declaration order, the strings with invalid UTF-8 replaced by U+FFFD,
`ModifiedDate` written by `Time.MarshalJSON`. -/
def jsonMarshalAccount (a : Account) : Except JSONError JSON :=
  match a.ModifiedDate.MarshalJSON with
  | .error e => .error e
  | .ok lit => .ok (.object [("id", jsonStringOf a.ID), ("name", jsonStringOf a.Name),
      ("modifiedDate", .number lit)])

/-! ## base64 and query escaping -/

/-- The alphabet of `base64.StdEncoding`. -/
def base64Alphabet : List Char :=
  "ABCDEFGHIJKLMNOPQRSTUVWXYZabcdefghijklmnopqrstuvwxyz0123456789+/".data

/-- The character of a 6-bit value in `base64.StdEncoding`. -/
def base64Char (v : Nat) : Char := base64Alphabet.getD v 'A'

/-- `base64.StdEncoding.Encode`: three bytes give four characters, the last
group is padded with `=`. -/
def base64Encode : List Nat → List Char
  | [] => []
  | [a] => [base64Char (a / 4), base64Char (a % 4 * 16), '=', '=']
  | [a, b] => [base64Char (a / 4), base64Char (a % 4 * 16 + b / 16), base64Char (b % 16 * 4), '=']
  | a :: b :: c :: rest =>
    base64Char (a / 4) :: base64Char (a % 4 * 16 + b / 16)
      :: base64Char (b % 16 * 4 + c / 64) :: base64Char (c % 64) :: base64Encode rest

/-- `base64.StdEncoding.EncodeToString([]byte(s))`. -/
def base64EncodeToString (s : String) : String := String.mk (base64Encode (stringBytes s))

/-- Upper case hexadecimal digit. -/
def upperHexChar (v : Nat) : Char := "0123456789ABCDEF".data.getD v '0'

/-- `url.QueryEscape` on one byte: unreserved bytes are kept, a space becomes
`+`, every other byte becomes `%XX`. -/
def queryEscapeByte (b : Nat) : List Char :=
  if (48 ≤ b ∧ b ≤ 57) ∨ (65 ≤ b ∧ b ≤ 90) ∨ (97 ≤ b ∧ b ≤ 122)
      ∨ b = 45 ∨ b = 95 ∨ b = 46 ∨ b = 126 then [Char.ofNat b]
  else if b = 32 then ['+']
  else ['%', upperHexChar (b / 16), upperHexChar (b % 16)]

/-- `url.QueryEscape`. -/
def QueryEscape (s : String) : String := String.mk ((stringBytes s).flatMap queryEscapeByte)

/-! ## net/url and net/http values -/

/-- A `url.Values`: keys with their values; a key occurs once. -/
abbrev Values := List (String × List String)

/-- `Values.Add`: append the value to the values of the key. -/
def Values.Add : Values → String → String → Values
  | [], k, v => [(k, [v])]
  | (k1, vs) :: rest, k, v =>
    if k1 = k then (k1, vs ++ [v]) :: rest else (k1, vs) :: Values.Add rest k v

/-- `Values.Set`, also `Header.Set`: the key gets the single value. -/
def Values.Set : Values → String → String → Values
  | [], k, v => [(k, [v])]
  | (k1, vs) :: rest, k, v =>
    if k1 = k then (k1, [v]) :: rest else (k1, vs) :: Values.Set rest k v

/-- The values of a key, `v[key]`. -/
def Values.get : Values → String → List String
  | [], _ => []
  | (k1, vs) :: rest, k => if k1 = k then vs else Values.get rest k

/-- Lexicographic order of byte sequences. -/
def bytesLess : List Nat → List Nat → Bool
  | [], [] => false
  | [], _ :: _ => true
  | _ :: _, [] => false
  | a :: as, b :: bs => if a < b then true else if b < a then false else bytesLess as bs

/-- The order of Go strings, `s < t`: byte by byte. -/
def stringLess (s t : String) : Bool := bytesLess (stringBytes s) (stringBytes t)

/-- Insertion of an entry into a list of entries sorted by key. -/
def insertByKey (e : String × List String) : Values → Values
  | [] => [e]
  | x :: rest => if stringLess e.1 x.1 then e :: x :: rest else x :: insertByKey e rest

/-- The entries sorted by key (`sort.Strings` on the keys). -/
def sortByKey : Values → Values
  | [] => []
  | e :: rest => insertByKey e (sortByKey rest)

/-- `Values.Encode`: `key=value` pairs, keys sorted, joined by `&`, both sides
query-escaped. -/
def Values.Encode (vs : Values) : String :=
  String.intercalate "&"
    ((sortByKey vs).flatMap (fun e => e.2.map (fun v => QueryEscape e.1 ++ "=" ++ QueryEscape v)))

/-- A `url.URL`, the components this package sets. -/
structure URL where
  Scheme : String
  Host : String
  Path : String
  RawQuery : String
  deriving DecidableEq, Repr

/-- `u.RequestURI()`: path and query as sent in the request line. -/
def URL.RequestURI (u : URL) : String :=
  (if u.Path = "" then "/" else u.Path) ++ (if u.RawQuery = "" then "" else "?" ++ u.RawQuery)

/-- What `encoding/json` makes of the bytes of a response body. -/
inductive BodyText where
  /-- No bytes at all. -/
  | empty : BodyText
  /-- Bytes that do not start with a well-formed JSON value. -/
  | malformed : BodyText
  /-- One JSON value, nothing but white space around it. -/
  | value (v : JSON) : BodyText
  /-- One JSON value followed by further bytes. -/
  | valueThenMore (v : JSON) : BodyText

/-- The input of `json.Unmarshal(data, ...)` on the whole body: the text must
be exactly one JSON value. -/
def BodyText.whole : BodyText → Option JSON
  | .value v => some v
  | _ => none

/-- An `http.Request`. -/
structure Request where
  Method : String
  URL : URL
  Header : Values
  Body : String
  deriving DecidableEq, Repr

/-- An `http.Response` as the HTTP client hands it out: the status code and
the body, which is never nil and is delivered in full. -/
structure Response where
  StatusCode : Int
  Body : BodyText

/-! ## go-querystring -/

/-- The Go value of a struct field that `query.Values` encodes. -/
inductive QValue where
  | int (i : Int) : QValue
  | str (s : String) : QValue
  | strs (xs : List String) : QValue

/-- A struct field with its `url` tag: the name, and the options `omitempty`
and `comma`. -/
structure QField where
  name : String
  omitempty : Bool
  comma : Bool
  value : QValue

/-- `isEmptyValue`: a zero integer, an empty string, a slice of length 0. -/
def isEmptyValue : QValue → Bool
  | .int i => i == 0
  | .str s => s.length == 0
  | .strs xs => xs.length == 0

/-- One field added to the values: skipped when `omitempty` and empty; a
slice with `comma` is one value, its elements joined by `,`; a slice without
a delimiter adds one value per element. -/
def reflectField (values : Values) (f : QField) : Values :=
  if f.omitempty && isEmptyValue f.value then values
  else
    match f.value with
    | .int i => values.Add f.name (FormatInt i)
    | .str s => values.Add f.name s
    | .strs xs =>
      if f.comma then values.Add f.name (String.intercalate "," xs)
      else xs.foldl (fun acc x => acc.Add f.name x) values

/-- `reflectValue`: the fields of the struct itself in order, then those of
its embedded structs. -/
def reflectValue (values : Values) (fields : List QField) (embedded : List (List QField)) :
    Values :=
  embedded.foldl (fun acc fs => fs.foldl reflectField acc) (fields.foldl reflectField values)

/-- The `opt interface{}` argument of `NewRequest`, as `query.Values` sees it:
a struct (own fields, embedded structs), a nil pointer, or a value of another
kind. -/
inductive OptValue where
  | struct (fields : List QField) (embedded : List (List QField)) : OptValue
  | nilPointer : OptValue
  | other : OptValue

/-- `query.Values(opt)`: an error for anything that is not a struct. -/
def queryValues : OptValue → Option Values
  | .struct fields embedded => some (reflectValue [] fields embedded)
  | .nilPointer => some []
  | .other => none

/-! ## relateiq.go: options -/

/-- `type ListOptions struct`: `Start` is tagged `url:"_start,omitempty"`,
`Limit` is tagged `url:"_limit,omitempty"`. -/
structure ListOptions where
  Start : Int
  Limit : Int
  deriving DecidableEq, Repr

/-- `type AccountsListOptions struct`: `IDs` is tagged
`url:"_ids,omitempty,comma"`, `ListOptions` is embedded. -/
structure AccountsListOptions where
  IDs : List String
  ListOptions : ListOptions
  deriving DecidableEq, Repr

/-- The fields of `ListOptions` with their tags. -/
def ListOptions.fields (o : ListOptions) : List QField :=
  [{ name := "_start", omitempty := true, comma := false, value := .int o.Start },
   { name := "_limit", omitempty := true, comma := false, value := .int o.Limit }]

/-- An `AccountsListOptions` as an `opt` argument. -/
def AccountsListOptions.toOpt (o : AccountsListOptions) : OptValue :=
  .struct [{ name := "_ids", omitempty := true, comma := true, value := .strs o.IDs }]
    [o.ListOptions.fields]

/-! ## relateiq.go: the client -/

/-- The constant `libraryVersion`. -/
def libraryVersion : String := "0.0.1"

/-- The constant `userAgent`. -/
def userAgent : String := "go-relateiq/" ++ libraryVersion

/-- `type Credentials struct`. -/
structure Credentials where
  APIKey : String
  APISecret : String
  deriving DecidableEq, Repr

/-- An `*http.Client` as this package uses it: `Do` answers a request with a
response or with an error. -/
abbrev Transport := Request → Except String Response

/-- `type Client struct` (the service field `Accounts` points back to the
client and is represented by `AccountsService`). -/
structure Client where
  BaseURL : URL
  UserAgent : String
  cred : Credentials
  httpClient : Transport

/-- The parts of the standard library taken as parameters:
`(*url.URL).ResolveReference` and `http.DefaultClient`. -/
structure Lib where
  ResolveReference : URL → URL → URL
  DefaultClient : Transport

/-- `NewClient`. -/
def NewClient (lib : Lib) (httpClient : Option Transport) (cred : Credentials) : Client :=
  let httpClient1 := match httpClient with
    | none => lib.DefaultClient
    | some h => h
  { BaseURL := { Scheme := "https", Host := "api.relateiq.com", Path := "/v2/", RawQuery := "" },
    UserAgent := userAgent,
    cred := cred,
    httpClient := httpClient1 }

/-- The outcome of running Go code that may panic. -/
inductive Outcome (α : Type) where
  | returned (a : α) : Outcome α
  | panicked : Outcome α

/-- The `*http.Response` an `ErrorResponse` holds: nil, the response that was
given to `CheckResponse`, or a response the JSON decoder allocated (of which
the status code is kept). -/
inductive ResponseRef where
  | nil : ResponseRef
  | given : ResponseRef
  | fresh (StatusCode : Int) : ResponseRef
  deriving DecidableEq, Repr

/-- `type ErrorResponse struct`; for `encoding/json` the fields are named
`Response` (tag `json:",omitempty"`) and `Message`. -/
structure ErrorResponse where
  Response : ResponseRef
  Message : String
  deriving DecidableEq, Repr

/-- Errors returned by the client. -/
inductive Error where
  /-- The error of `query.Values`. -/
  | query : Error
  /-- The error of encoding the request body as JSON. -/
  | encodeBody : Error
  /-- The error of `http.NewRequest`. -/
  | newRequest : Error
  /-- The error of the HTTP client. -/
  | transport (msg : String) : Error
  /-- The `*ErrorResponse` of `CheckResponse`. -/
  | api (e : ErrorResponse) : Error
  /-- The `fmt.Errorf("reading response from %s %s: %s", ...)` of `Do`. -/
  | reading (method uri : String) (cause : JSONError) : Error

/-- The characters of an HTTP token (`httpguts.IsTokenRune`). -/
def isTokenChar (c : Char) : Bool :=
  (48 ≤ c.toNat ∧ c.toNat ≤ 57) ∨ (65 ≤ c.toNat ∧ c.toNat ≤ 90) ∨ (97 ≤ c.toNat ∧ c.toNat ≤ 122)
    ∨ "!#$%&'*+-.^_`|~".data.contains c

/-- `validMethod`: a non-empty token. -/
def validMethod (method : String) : Bool :=
  method.data ≠ [] ∧ method.data.all isTokenChar

/-- `http.NewRequest(method, u.String(), body)`: an empty method means `GET`,
a method that is not a token is refused; the URL of the request has the
components of `u`; the header is empty. -/
def httpNewRequest (method : String) (u : URL) (body : String) : Except Error Request :=
  let method1 := if method = "" then "GET" else method
  if validMethod method1 then
    .ok { Method := method1, URL := u, Header := [], Body := body }
  else .error .newRequest

/-- `req.SetBasicAuth(username, password)`. -/
def Request.SetBasicAuth (req : Request) (username password : String) : Request :=
  let auth := "Basic " ++ base64EncodeToString (username ++ ":" ++ password)
  { req with Header := Values.Set req.Header "Authorization" auth }

/-- `Client.NewRequest`.  `opt` and `body` are `none` for a nil interface;
a body is given by the outcome of its JSON encoding (`none`: the value cannot
be encoded). -/
def Client.NewRequest (lib : Lib) (c : Client) (method urlPath : String)
    (opt : Option OptValue) (body : Option (Option String)) : Except Error Request :=
  let u := lib.ResolveReference c.BaseURL { Scheme := "", Host := "", Path := urlPath, RawQuery := "" }
  let u1 : Except Error URL :=
    match opt with
    | none => .ok u
    | some o =>
      match queryValues o with
      | none => .error .query
      | some qs => .ok { u with RawQuery := qs.Encode }
  match u1 with
  | .error e => .error e
  | .ok u2 =>
    let buf : Except Error String :=
      match body with
      | none => .ok ""
      | some none => .error .encodeBody
      | some (some text) => .ok text
    match buf with
    | .error e => .error e
    | .ok buf1 =>
      match httpNewRequest method u2 buf1 with
      | .error e => .error e
      | .ok req =>
        let req1 := req.SetBasicAuth c.cred.APIKey c.cred.APISecret
        .ok { req1 with Header := Values.Add req1.Header "User-Agent" c.UserAgent }

/-! ## relateiq.go: CheckResponse -/

/-- The exported fields of `http.Response`, by which an object key is matched
when JSON is decoded into a response. -/
def responseFieldNames : List String :=
  ["Status", "StatusCode", "Proto", "ProtoMajor", "ProtoMinor", "Header", "Body",
   "ContentLength", "TransferEncoding", "Close", "Uncompressed", "Trailer", "Request", "TLS"]

/-- The keys of a JSON object decoded into an `http.Response`, of which the
model keeps `StatusCode`.  A key that selects another field changes nothing
the model keeps. -/
def decodeResponseFields (kvs : List (String × JSON)) (sc : Int) (saved : Option JSONError) :
    Int × Option JSONError :=
  kvs.foldl (fun acc kv =>
    match findField responseFieldNames kv.1 with
    | some "StatusCode" =>
      let r := storeInt kv.2 acc.1
      (r.1, match r.2 with | some e => saveError acc.2 e | none => acc.2)
    | _ => acc) (sc, saved)

/-- The state `json.Unmarshal(data, errorResponse)` works on: the error
response, the response given to `CheckResponse` (reachable through the
pointer `Response`), and the first saved error. -/
structure ErrState where
  e : ErrorResponse
  given : Response
  saved : Option JSONError

/-- A JSON value decoded into the field `Response *http.Response`: `null`
sets the pointer to nil; any other value is decoded into the response the
pointer refers to, which is allocated first when the pointer is nil; a value
that is not an object is a type error. -/
def decodeResponsePtr (v : JSON) (st : ErrState) : ErrState :=
  match v with
  | .null => { st with e := { st.e with Response := .nil } }
  | .object kvs =>
    match st.e.Response with
    | .given =>
      let r := decodeResponseFields kvs st.given.StatusCode st.saved
      { st with given := { st.given with StatusCode := r.1 }, saved := r.2 }
    | .fresh sc =>
      let r := decodeResponseFields kvs sc st.saved
      { st with e := { st.e with Response := .fresh r.1 }, saved := r.2 }
    | .nil =>
      let r := decodeResponseFields kvs 0 st.saved
      { st with e := { st.e with Response := .fresh r.1 }, saved := r.2 }
  | _ =>
    let ref := match st.e.Response with
      | .nil => ResponseRef.fresh 0
      | other => other
    { st with e := { st.e with Response := ref }, saved := saveError st.saved .unmarshalTypeError }

/-- One key of a JSON object decoded into an `ErrorResponse`. -/
def decodeErrorField (st : ErrState) (key : String) (v : JSON) : ErrState :=
  match findField ["Response", "Message"] key with
  | some "Response" => decodeResponsePtr v st
  | some "Message" =>
    let r := storeString v st.e.Message
    { st with e := { st.e with Message := r.1 },
              saved := match r.2 with | some e => saveError st.saved e | none => st.saved }
  | _ => st

/-- `json.Unmarshal(data, errorResponse)` for `errorResponse *ErrorResponse`:
the state afterwards and the error returned. -/
def jsonUnmarshalErrorResponse (b : Option JSON) (st : ErrState) : ErrState × Option JSONError :=
  match b with
  | none => (st, some .syntaxError)
  | some (.object kvs) =>
    let st1 := kvs.foldl (fun acc kv => decodeErrorField acc kv.1 kv.2) st
    (st1, st1.saved)
  | some .null => (st, none)
  | some _ => (st, some .unmarshalTypeError)

/-- `CheckResponse(r)`: the error returned (`none` is the nil error) and the
response `r` points to as it is after the call.  The body is read in full
(`ioutil.ReadAll` gives a non-nil slice and no error) and handed to
`json.Unmarshal`, whose error is dropped. -/
def CheckResponse (r : Response) : Option ErrorResponse × Response :=
  if 200 ≤ r.StatusCode ∧ r.StatusCode ≤ 299 then (none, r)
  else
    let errorResponse : ErrorResponse := { Response := .given, Message := "" }
    let st := (jsonUnmarshalErrorResponse r.Body.whole
      { e := errorResponse, given := r, saved := none }).1
    (some st.e, st.given)

/-- `(*ErrorResponse).HTTPStatusCode`: `r.Response.StatusCode`, where `given`
is the response that was given to `CheckResponse`, as it is now. -/
def ErrorResponse.HTTPStatusCode (e : ErrorResponse) (given : Relateiq.Response) :
    Outcome Int :=
  match e.Response with
  | .nil => .panicked
  | .given => .returned given.StatusCode
  | .fresh sc => .returned sc

/-! ## relateiq.go: Do -/

/-- The argument `v interface{}` of `Do` when it is not nil: the value it
points to, and how `encoding/json` decodes a JSON value into a value of that
type. -/
structure Target (α : Type) where
  cur : α
  decode : JSON → α → α × Option JSONError

/-- What `Do` returns: the response pointer, the error, and the value `v`
points to afterwards (`none` when `v` is nil). -/
structure DoResult (α : Type) where
  resp : Option Response
  err : Option Error
  out : Option α

/-- `json.NewDecoder(resp.Body).Decode(v)`: the first JSON value of the
stream is decoded; an empty stream is `io.EOF`. -/
def decoderDecode {α : Type} (body : BodyText) (v : Target α) : α × Option JSONError :=
  match body with
  | .empty => (v.cur, some .eof)
  | .malformed => (v.cur, some .syntaxError)
  | .value j => v.decode j v.cur
  | .valueThenMore j => v.decode j v.cur

/-- `Client.Do`. -/
def Client.Do {α : Type} (c : Client) (req : Request) (v : Option (Target α)) : DoResult α :=
  match c.httpClient req with
  | .error msg => { resp := none, err := some (.transport msg), out := v.map (fun t => t.cur) }
  | .ok resp =>
    match CheckResponse resp with
    | (some e, resp1) => { resp := some resp1, err := some (.api e), out := v.map (fun t => t.cur) }
    | (none, resp1) =>
      match v with
      | none => { resp := some resp1, err := none, out := none }
      | some t =>
        match decoderDecode resp1.Body t with
        | (x, some cause) =>
          { resp := none, err := some (.reading req.Method req.URL.RequestURI cause), out := some x }
        | (x, none) => { resp := some resp1, err := none, out := some x }

/-! ## accounts.go: List -/

/-- The anonymous `struct { Objects []*Account }` (JSON name `objects`) that
`List` decodes into.  An element `none` is a nil `*Account`. -/
structure ListEnvelope where
  Objects : List (Option Account)
  deriving DecidableEq, Repr

/-- A JSON value decoded into a `*Account` element: `null` gives nil; any
other value is decoded into the account pointed to, allocated first when the
pointer is nil. -/
def decodeAccountPtr (v : JSON) (cur : Option Account) (saved : Option JSONError) :
    Decoded (Option Account) :=
  match v with
  | .null => { value := none, saved := saved, aborted := none }
  | _ =>
    let a0 := match cur with
      | some a => a
      | none => zeroAccount
    let d := decodeAccount v { value := a0, saved := saved, aborted := none }
    { value := some d.value, saved := d.saved, aborted := d.aborted }

/-- The elements of a JSON array decoded into a `[]*Account`, element `i`
into what the slice holds at index `i` (a nil pointer beyond its length).
The slice ends where the array ends; a run that is stopped leaves the
remaining elements as they were. -/
def decodeElems : List JSON → List (Option Account) → Option JSONError →
    Decoded (List (Option Account))
  | [], _, saved => { value := [], saved := saved, aborted := none }
  | v :: vs, old, saved =>
    let d := decodeAccountPtr v old.head?.join saved
    match d.aborted with
    | some e => { value := d.value :: old.tail, saved := d.saved, aborted := some e }
    | none =>
      let rest := decodeElems vs old.tail d.saved
      { value := d.value :: rest.value, saved := rest.saved, aborted := rest.aborted }

/-- One key of a JSON object decoded into the envelope. -/
def decodeEnvelopeField (d : Decoded ListEnvelope) (key : String) (v : JSON) :
    Decoded ListEnvelope :=
  match d.aborted with
  | some _ => d
  | none =>
    match findField ["objects"] key with
    | some "objects" =>
      match v with
      | .null => { d with value := { Objects := [] } }
      | .array xs =>
        let r := decodeElems xs d.value.Objects d.saved
        { value := { Objects := r.value }, saved := r.saved, aborted := r.aborted }
      | _ => { d with saved := saveError d.saved .unmarshalTypeError }
    | _ => d

/-- A JSON value decoded through `&list` for `var list *struct{...}`: `null`
sets `list` to nil; any other value is decoded into the struct pointed to,
allocated first when `list` is nil; a value that is not an object is a type
error. -/
def decodeEnvelopePtr (v : JSON) (list : Option ListEnvelope) :
    Option ListEnvelope × Option JSONError :=
  match v with
  | .null => (none, none)
  | _ =>
    let env0 := match list with
      | some env => env
      | none => { Objects := [] }
    match v with
    | .object kvs =>
      let d := kvs.foldl (fun acc kv => decodeEnvelopeField acc kv.1 kv.2)
        { value := env0, saved := none, aborted := none }
      (some d.value, d.err)
    | _ => (some env0, some .unmarshalTypeError)

/-- `type AccountsService struct { c *Client }`. -/
structure AccountsService where
  c : Client

/-- `AccountsService.List`: the slice, the response and the error returned,
or a panic when `list.Objects` is evaluated with `list` nil. -/
def AccountsService.List (lib : Lib) (s : AccountsService) (opt : AccountsListOptions) :
    Outcome (List (Option Account) × Option Response × Option Error) :=
  match s.c.NewRequest lib "GET" "accounts" (some opt.toOpt) none with
  | .error err => .returned ([], none, some err)
  | .ok req =>
    let r := s.c.Do req (some { cur := (none : Option ListEnvelope), decode := decodeEnvelopePtr })
    let list : Option ListEnvelope := match r.out with
      | some l => l
      | none => none
    match r.err with
    | some err => .returned ([], r.resp, some err)
    | none =>
      match list with
      | none => .panicked
      | some env => .returned (env.Objects, r.resp, none)

/-- An instance of the library parameters for evaluating examples: a
relative path without dot segments is appended to a base path that ends in
`/`; the default client answers every request with an empty 200 response. -/
def exampleLib : Lib where
  ResolveReference := fun base ref =>
    if ref.Path = "" then base
    else { base with Path := base.Path ++ ref.Path, RawQuery := ref.RawQuery }
  DefaultClient := fun _ => .ok { StatusCode := 200, Body := .empty }

/-! ## Statements in the words of the specification -/

/-- The timestamp `epoch + m milliseconds`, in UTC. -/
def epochPlusMillis (m : Int) : Time :=
  { time := { sec := m / 1000, nsec := m % 1000 * 1000000, loc := .UTC } }

/-- The nanoseconds from the epoch to `t`, as a mathematical integer. -/
def Time.nanos (t : Time) : Int := t.time.sec * 1000000000 + t.time.nsec

/-- The value of the text of a JSON integer: an optional minus sign followed
by decimal digits; `none` for any other text. -/
def integerLiteral (lit : String) : Option Int :=
  match lit.data with
  | [] => none
  | c :: cs =>
    if c = '-' then
      match cs with
      | [] => none
      | _ :: _ => (parseDigits cs 0).map (fun n => -(Int.ofNat n))
    else (parseDigits (c :: cs) 0).map Int.ofNat

/-- The wire value `b` is the JSON integer `m`. -/
def isJSONInteger (b : Option JSON) (m : Int) : Prop :=
  ∃ lit, b = some (.number lit) ∧ integerLiteral lit = some m

/-- A number token never starts with a plus sign (JSON grammar); other wire
values are not constrained. -/
def tokenOK (b : Option JSON) : Prop :=
  ∀ lit, b = some (.number lit) → lit.data.head? ≠ some '+'

/-- The query parameters the specification gives for an options value:
`_ids` when the list is not empty, joined by commas; `_start` and `_limit`
when not 0, in decimal. -/
def expectedQuery (opt : AccountsListOptions) : Values :=
  (if opt.IDs = [] then [] else [("_ids", [String.intercalate "," opt.IDs])])
    ++ (if opt.ListOptions.Start = 0 then [] else [("_start", [FormatInt opt.ListOptions.Start])])
    ++ (if opt.ListOptions.Limit = 0 then [] else [("_limit", [FormatInt opt.ListOptions.Limit])])

/-! ## Lemmas: strconv -/

theorem digitVal_digitChar (d : Nat) (h : d < 10) : digitVal (digitChar d) = some d := by
  interval_cases d <;> decide

theorem digitChar_ne_sign (d : Nat) (h : d < 10) : digitChar d ≠ '+' ∧ digitChar d ≠ '-' := by
  interval_cases d <;> decide

/-- Parsing the digits written by `formatBits` continues with the
accumulator extended by those digits. -/
theorem parseDigits_formatBits (fuel : Nat) :
    ∀ n acc, n < fuel → ∃ k, ∀ a,
      parseDigits (formatBits fuel n acc) a = parseDigits acc (a * 10 ^ k + n) := by
  induction fuel with
  | zero => intro n acc h; omega
  | succ f ih =>
    intro n acc h
    by_cases h10 : n < 10
    · refine ⟨1, fun a => ?_⟩
      simp [formatBits, h10, parseDigits, digitVal_digitChar n h10]
    · obtain ⟨k, hk⟩ := ih (n / 10) (digitChar (n % 10) :: acc) (by omega)
      refine ⟨k + 1, fun a => ?_⟩
      have hd : digitVal (digitChar (n % 10)) = some (n % 10) :=
        digitVal_digitChar _ (by omega)
      simp only [formatBits, h10, if_false, hk, parseDigits, hd]
      congr 1
      rw [pow_succ]
      nlinarith [Nat.div_add_mod n 10]

/-- The text written by `formatBits` starts with a digit. -/
theorem formatBits_head (fuel : Nat) :
    ∀ n acc, n < fuel → ∃ d rest, d < 10 ∧ formatBits fuel n acc = digitChar d :: rest := by
  induction fuel with
  | zero => intro n acc h; omega
  | succ f ih =>
    intro n acc h
    by_cases h10 : n < 10
    · exact ⟨n, acc, h10, by simp [formatBits, h10]⟩
    · obtain ⟨d, rest, hd, hr⟩ := ih (n / 10) (digitChar (n % 10) :: acc) (by omega)
      exact ⟨d, rest, hd, by simp [formatBits, h10, hr]⟩

theorem parseDigits_FormatUint (n : Nat) : parseDigits (FormatUint n) 0 = some n := by
  obtain ⟨k, hk⟩ := parseDigits_formatBits (n + 1) n [] (by omega)
  simp [FormatUint, hk, parseDigits]

theorem FormatUint_head (n : Nat) : ∃ d rest, d < 10 ∧ FormatUint n = digitChar d :: rest :=
  formatBits_head (n + 1) n [] (by omega)

theorem ParseUint_FormatUint (n : Nat) :
    ParseUint (FormatUint n) = if n ≤ 18446744073709551615 then some n else none := by
  obtain ⟨d, rest, _, hr⟩ := FormatUint_head n
  have hp := parseDigits_FormatUint n
  rw [hr] at hp
  simp only [ParseUint, hr, hp]

/-- Reading back the decimal text of an `int64` gives the number. -/
theorem ParseInt_FormatInt (m : Int) (hlo : int64Min ≤ m) (hhi : m ≤ int64Max) :
    ParseInt (FormatInt m) = some m := by
  unfold int64Min at hlo
  unfold int64Max at hhi
  by_cases hneg : m < 0
  · have hu := ParseUint_FormatUint m.natAbs
    have hle : m.natAbs ≤ 18446744073709551615 := by omega
    rw [if_pos hle] at hu
    have hcut : ¬ m.natAbs > 9223372036854775808 := by omega
    simp only [ParseInt, FormatInt, hneg, if_true, parseIntChars, hu, hcut, if_false]
    have h1 : ¬ ('-' = '+') := by decide
    simp only [h1, if_false, if_true]
    congr 1
    simp only [Int.ofNat_eq_coe]
    omega
  · obtain ⟨d, rest, hd, hr⟩ := FormatUint_head m.natAbs
    have hu := ParseUint_FormatUint m.natAbs
    have hle : m.natAbs ≤ 18446744073709551615 := by omega
    rw [if_pos hle, hr] at hu
    have hcut : ¬ m.natAbs ≥ 9223372036854775808 := by omega
    obtain ⟨hp, hm⟩ := digitChar_ne_sign d hd
    simp only [ParseInt, FormatInt, hneg, if_false, hr, parseIntChars, hp, hm, hu, hcut]
    congr 1
    simp only [Int.ofNat_eq_coe]
    omega

/-- The decimal text of an integer outside the `int64` range is refused. -/
theorem ParseInt_FormatInt_outside (m : Int) (h : m < int64Min ∨ int64Max < m) :
    ParseInt (FormatInt m) = none := by
  unfold int64Min int64Max at h
  by_cases hneg : m < 0
  · have hu := ParseUint_FormatUint m.natAbs
    have h1 : ¬ ('-' = '+') := by decide
    simp only [ParseInt, FormatInt, hneg, if_true, parseIntChars, hu, h1, if_false]
    by_cases hle : m.natAbs ≤ 18446744073709551615
    · have hcut : m.natAbs > 9223372036854775808 := by omega
      simp [hle, hcut]
    · simp [hle]
  · obtain ⟨d, rest, hd, hr⟩ := FormatUint_head m.natAbs
    have hu := ParseUint_FormatUint m.natAbs
    rw [hr] at hu
    obtain ⟨hp, hm⟩ := digitChar_ne_sign d hd
    simp only [ParseInt, FormatInt, hneg, if_false, hr, parseIntChars, hp, hm, hu]
    by_cases hle : m.natAbs ≤ 18446744073709551615
    · have hcut : m.natAbs ≥ 9223372036854775808 := by omega
      simp [hle, hcut]
    · simp [hle]

/-! ## Lemmas: machine integers and time -/

theorem wrap64_of_int64 (x : Int) (hlo : int64Min ≤ x) (hhi : x ≤ int64Max) : wrap64 x = x := by
  unfold int64Min at hlo
  unfold int64Max at hhi
  unfold wrap64
  omega

/-- Truncated division by a positive number, in terms of floor division. -/
theorem tdiv_eq (a b : Int) (hb : 0 < b) :
    Int.tdiv a b = if 0 ≤ a then a / b else -((-a) / b) := by
  by_cases ha : 0 ≤ a
  · rw [if_pos ha, Int.tdiv_eq_ediv ha (le_of_lt hb)]
  · rw [if_neg ha]
    have h := Int.tdiv_eq_ediv (a := -a) (b := b) (by omega) (le_of_lt hb)
    rw [Int.neg_tdiv] at h
    omega

/-- `time.Unix(0, ns)` is the time `ns` nanoseconds after the epoch, with the
nanosecond field in `[0, 10^9)`. -/
theorem timeUnix_zero (ns : Int) :
    timeUnix 0 ns = { sec := ns / 1000000000, nsec := ns % 1000000000, loc := .Local } := by
  unfold timeUnix
  rw [tdiv_eq ns 1000000000 (by norm_num)]
  by_cases h : ns < 0 ∨ ns ≥ 1000000000
  · rw [if_pos h]
    by_cases h0 : 0 ≤ ns
    · simp only [if_pos h0]
      have h1 : ¬ (ns - ns / 1000000000 * 1000000000 < 0) := by omega
      rw [if_neg h1]
      congr 1 <;> omega
    · simp only [if_neg h0]
      by_cases h1 : ns - -(-ns / 1000000000) * 1000000000 < 0
      · rw [if_pos h1]
        congr 1 <;> omega
      · rw [if_neg h1]
        congr 1 <;> omega
  · rw [if_neg h]
    congr 1 <;> omega

/-- Encoding a timestamp whose nanosecond count fits an `int64` writes that
count divided by 1,000,000, rounded toward zero. -/
theorem MarshalJSON_of_int64 (t : Time) (hlo : int64Min ≤ t.nanos) (hhi : t.nanos ≤ int64Max) :
    t.MarshalJSON = .ok (FormatInt (Int.tdiv t.nanos 1000000)) := by
  unfold Time.nanos at hlo hhi
  simp only [Time.MarshalJSON, GoTime.UnixNano, timeMillisecond, Time.nanos]
  rw [wrap64_of_int64 _ hlo hhi]

/-- Decoding a number token that `strconv.ParseInt` reads as `m`, with
`1000000 * m` in the `int64` range, gives `epoch + m ms` in UTC. -/
theorem UnmarshalJSON_number (lit : String) (m : Int) (hp : ParseInt lit = some m)
    (hlo : -9223372036854 ≤ m) (hhi : m ≤ 9223372036854) :
    Time.UnmarshalJSON (some (.number lit)) = .ok (epochPlusMillis m) := by
  have hw : wrap64 (1000000 * m) = 1000000 * m :=
    wrap64_of_int64 _ (by unfold int64Min; omega) (by unfold int64Max; omega)
  simp only [Time.UnmarshalJSON, jsonUnmarshalInt64, hp, hw, timeUnix_zero, GoTime.In,
    epochPlusMillis]
  congr 3 <;> omega

/-- Encoding `epoch + m ms` writes the decimal text of `m`, when
`1000000 * m` is in the `int64` range. -/
theorem MarshalJSON_epochPlusMillis (m : Int) (hlo : -9223372036854 ≤ m)
    (hhi : m ≤ 9223372036854) : (epochPlusMillis m).MarshalJSON = .ok (FormatInt m) := by
  have hn : (epochPlusMillis m).nanos = 1000000 * m := by
    simp only [Time.nanos, epochPlusMillis]
    omega
  rw [MarshalJSON_of_int64 _ (by rw [hn]; unfold int64Min; omega)
    (by rw [hn]; unfold int64Max; omega), hn, tdiv_eq _ _ (by norm_num)]
  congr 2
  split <;> omega

/-- A text that `strconv.ParseInt` accepts and that has no plus sign in front
is the text of a JSON integer in the `int64` range. -/
theorem integerLiteral_of_ParseInt (lit : String) (n : Int) (hp : ParseInt lit = some n)
    (hplus : lit.data.head? ≠ some '+') :
    integerLiteral lit = some n ∧ int64Min ≤ n ∧ n ≤ int64Max := by
  unfold ParseInt parseIntChars at hp
  unfold integerLiteral int64Min int64Max
  cases hl : lit.data with
  | nil => rw [hl] at hp; simp at hp
  | cons c cs =>
    rw [hl] at hp hplus
    have hc : ¬ c = '+' := by simpa using hplus
    simp only [hc, if_false] at hp
    by_cases hm : c = '-'
    · simp only [hm, if_true] at hp ⊢
      cases cs with
      | nil => simp [ParseUint] at hp
      | cons c2 cs2 =>
        simp only [ParseUint] at hp
        cases hd : parseDigits (c2 :: cs2) 0 with
        | none => rw [hd] at hp; simp at hp
        | some un =>
          rw [hd] at hp
          by_cases h1 : un ≤ 18446744073709551615
          · simp only [h1, if_true] at hp
            by_cases h2 : un > 9223372036854775808
            · simp [h2] at hp
            · simp only [h2, if_false, Option.some.injEq] at hp
              subst hp
              simp only [Option.map_some', Int.ofNat_eq_coe, true_and]
              omega
          · simp [h1] at hp
    · simp only [hm, if_false] at hp ⊢
      simp only [ParseUint] at hp
      cases hd : parseDigits (c :: cs) 0 with
      | none => rw [hd] at hp; simp at hp
      | some un =>
        rw [hd] at hp
        by_cases h1 : un ≤ 18446744073709551615
        · simp only [h1, if_true] at hp
          by_cases h2 : un ≥ 9223372036854775808
          · simp [h2] at hp
          · simp only [h2, if_false, Option.some.injEq] at hp
            subst hp
            simp only [Option.map_some', Int.ofNat_eq_coe, true_and]
            omega
        · simp [h1] at hp

/-- The text of a JSON integer in the `int64` range is accepted by
`strconv.ParseInt`, with the same value. -/
theorem ParseInt_of_integerLiteral (lit : String) (m : Int) (hi : integerLiteral lit = some m)
    (hlo : int64Min ≤ m) (hhi : m ≤ int64Max) : ParseInt lit = some m := by
  unfold integerLiteral at hi
  unfold int64Min at hlo
  unfold int64Max at hhi
  unfold ParseInt parseIntChars
  cases hl : lit.data with
  | nil => rw [hl] at hi; simp at hi
  | cons c cs =>
    rw [hl] at hi
    by_cases hm : c = '-'
    · have hc : ¬ c = '+' := by rw [hm]; decide
      simp only [hm, if_true] at hi
      cases cs with
      | nil => simp at hi
      | cons c2 cs2 =>
        simp only [Option.map_eq_some'] at hi
        obtain ⟨un, hd, hv⟩ := hi
        simp only [Int.ofNat_eq_coe] at hv
        have h1 : un ≤ 18446744073709551615 := by omega
        have h2 : ¬ un > 9223372036854775808 := by omega
        have h3 : ¬ ('-' = '+') := by decide
        simp only [hm, h3, if_false, if_true, ParseUint, hd, h1, h2, Int.ofNat_eq_coe]
        rw [hv]
    · simp only [hm, if_false, Option.map_eq_some'] at hi
      obtain ⟨un, hd, hv⟩ := hi
      simp only [Int.ofNat_eq_coe] at hv
      have hc : ¬ c = '+' := by
        intro h
        rw [h] at hd
        simp [parseDigits, digitVal] at hd
      have h1 : un ≤ 18446744073709551615 := by omega
      have h2 : ¬ un ≥ 9223372036854775808 := by omega
      simp only [hc, hm, if_false, ParseUint, hd, h1, h2, if_true, Int.ofNat_eq_coe]
      rw [hv]

/-! ## The timestamp codec -/

/-- C1, as amended: for every millisecond value `m` with
`0 ≤ m ≤ 9223372036854` (so that `1000000 * m` fits an `int64`),
`Time.UnmarshalJSON` on the decimal text of `m` succeeds and
`Time.MarshalJSON` on the resulting time returns the decimal text of `m`. -/
theorem Time_roundtrip (m : Int) (h0 : 0 ≤ m) (hhi : m ≤ 9223372036854) :
    ∃ t, Time.UnmarshalJSON (decimalWire m) = .ok t ∧ t.MarshalJSON = .ok (FormatInt m) := by
  have hp : ParseInt (FormatInt m) = some m :=
    ParseInt_FormatInt m (by unfold int64Min; omega) (by unfold int64Max; omega)
  exact ⟨epochPlusMillis m, UnmarshalJSON_number _ m hp (by omega) hhi,
    MarshalJSON_epochPlusMillis m (by omega) hhi⟩

/-- C1, witness of the amended statement at `m = 1414001420560`. -/
theorem Time_roundtrip_witness :
    ∃ t, Time.UnmarshalJSON (decimalWire 1414001420560) = .ok t
      ∧ t.MarshalJSON = .ok (FormatInt 1414001420560) :=
  Time_roundtrip 1414001420560 (by decide) (by decide)

/-- C1, as stated, fails at `m = 9223372036855`, a non-negative `int64`:
`1000000 * m` overflows, decoding gives a time in the year 1677 and encoding
that time gives `-9223372036854`. -/
theorem Time_roundtrip_overflow :
    (0 : Int) ≤ 9223372036855 ∧ (9223372036855 : Int) ≤ int64Max
      ∧ Time.UnmarshalJSON (decimalWire 9223372036855)
          = .ok ⟨⟨-9223372037, 145448384, .UTC⟩⟩
      ∧ (⟨⟨-9223372037, 145448384, .UTC⟩⟩ : Time).MarshalJSON = .ok "-9223372036854"
      ∧ ¬ ∃ t, Time.UnmarshalJSON (decimalWire 9223372036855) = .ok t
          ∧ t.MarshalJSON = .ok (FormatInt 9223372036855) := by
  have hu : Time.UnmarshalJSON (decimalWire 9223372036855)
      = .ok ⟨⟨-9223372037, 145448384, .UTC⟩⟩ := by decide
  refine ⟨by decide, by decide, hu, by decide, ?_⟩
  rintro ⟨t, h1, h2⟩
  rw [hu] at h1
  injection h1 with h1
  subst h1
  revert h2
  decide

/-- C9, as amended: for every timestamp whose nanosecond count `n` from the
epoch fits an `int64`, `Time.MarshalJSON` returns the decimal text of
`n / 1,000,000` rounded toward zero.  That is `floor(n / 1,000,000)` when
`n ≥ 0` or `n` is a multiple of 1,000,000, and `floor(n / 1,000,000) + 1`
otherwise. -/
theorem MarshalJSON_truncates (t : Time) (hlo : int64Min ≤ t.nanos) (hhi : t.nanos ≤ int64Max) :
    t.MarshalJSON = .ok (FormatInt (Int.tdiv t.nanos 1000000))
      ∧ (0 ≤ t.nanos ∨ t.nanos % 1000000 = 0 →
          t.MarshalJSON = .ok (FormatInt (t.nanos / 1000000)))
      ∧ (t.nanos < 0 → t.nanos % 1000000 ≠ 0 →
          t.MarshalJSON = .ok (FormatInt (t.nanos / 1000000 + 1))) := by
  have h := MarshalJSON_of_int64 t hlo hhi
  refine ⟨h, fun hc => ?_, fun hneg hrem => ?_⟩
  · rw [h, tdiv_eq _ _ (by norm_num)]
    congr 2
    split <;> omega
  · rw [h, tdiv_eq _ _ (by norm_num)]
    congr 2
    split <;> omega

/-- C9, witness of the amended statement: 1.5 ms before the epoch is written
as `-1`. -/
theorem MarshalJSON_truncates_witness :
    (⟨⟨-1, 998500000, .UTC⟩⟩ : Time).MarshalJSON = .ok "-1" := by
  have h := (MarshalJSON_truncates ⟨⟨-1, 998500000, .UTC⟩⟩ (by decide) (by decide)).1
  rw [h]
  decide

/-- C9, as stated, fails one nanosecond before the epoch: `n = -1`, the code
writes `0`, and `floor(n / 1,000,000)` is `-1`.  It also fails for the zero
`time.Time` (year 1), whose nanosecond count does not fit an `int64`. -/
theorem MarshalJSON_not_floor :
    (⟨⟨-1, 999999999, .UTC⟩⟩ : Time).nanos = -1
      ∧ (⟨⟨-1, 999999999, .UTC⟩⟩ : Time).MarshalJSON = .ok "0"
      ∧ FormatInt ((⟨⟨-1, 999999999, .UTC⟩⟩ : Time).nanos / 1000000) = "-1"
      ∧ (⟨⟨-1, 999999999, .UTC⟩⟩ : Time).MarshalJSON
          ≠ .ok (FormatInt ((⟨⟨-1, 999999999, .UTC⟩⟩ : Time).nanos / 1000000))
      ∧ (⟨zeroGoTime⟩ : Time).MarshalJSON
          ≠ .ok (FormatInt ((⟨zeroGoTime⟩ : Time).nanos / 1000000)) := by
  refine ⟨by decide, by decide, by decide, by decide, by decide⟩

/-- A text with a character that is not a decimal digit is not read by the
digit loop. -/
theorem parseDigits_none_of_mem (c : Char) (hc : digitVal c = none) :
    ∀ (s : List Char) (a : Nat), c ∈ s → parseDigits s a = none := by
  intro s
  induction s with
  | nil => intro a h; simp at h
  | cons x xs ih =>
    intro a h
    rcases List.mem_cons.1 h with rfl | h
    · simp [parseDigits, hc]
    · cases hx : digitVal x with
      | none => simp [parseDigits, hx]
      | some d => simp [parseDigits, hx, ih _ h]

/-- A number token with a fraction or an exponent is not the text of a JSON
integer. -/
theorem integerLiteral_fraction (lit : String) (c : Char) (hmem : c ∈ lit.data)
    (hc : c = '.' ∨ c = 'e' ∨ c = 'E') : integerLiteral lit = none := by
  have hd : digitVal c = none := by rcases hc with rfl | rfl | rfl <;> decide
  have hne : c ≠ '-' := by rcases hc with rfl | rfl | rfl <;> decide
  unfold integerLiteral
  cases hl : lit.data with
  | nil => rfl
  | cons x xs =>
    rw [hl] at hmem
    by_cases hm : x = '-'
    · have hxs : c ∈ xs := by
        rcases List.mem_cons.1 hmem with h | h
        · exact absurd (h.trans hm) hne
        · exact h
      cases xs with
      | nil => simp [hm]
      | cons y ys => simp [hm, parseDigits_none_of_mem c hd _ 0 hxs]
    · simp [hm, parseDigits_none_of_mem c hd _ 0 hmem]

/-- C10, as amended: for every wire value `b` (a number token never starts
with `+`), `Time.UnmarshalJSON(b)` (1) on `null` returns no error and gives
the epoch; (2) on any other value that is not a JSON integer in the 64-bit
signed range (text that is not JSON, a string, a boolean, an array, an
object, a fractional or exponent-form number, an integer out of range)
returns an error; (3) on a JSON integer `m` in the 64-bit signed range
succeeds; (4) and gives `epoch + m ms` in UTC when
`-9223372036854 ≤ m ≤ 9223372036854`. -/
theorem UnmarshalJSON_cases (b : Option JSON) (hb : tokenOK b) :
    (b = some .null → Time.UnmarshalJSON b = .ok (epochPlusMillis 0))
      ∧ (b ≠ some .null → (¬ ∃ m, isJSONInteger b m ∧ int64Min ≤ m ∧ m ≤ int64Max) →
          ∃ e, Time.UnmarshalJSON b = .error e)
      ∧ (∀ m, isJSONInteger b m → int64Min ≤ m → m ≤ int64Max →
          ∃ t, Time.UnmarshalJSON b = .ok t)
      ∧ (∀ m, isJSONInteger b m → -9223372036854 ≤ m → m ≤ 9223372036854 →
          Time.UnmarshalJSON b = .ok (epochPlusMillis m)) := by
  refine ⟨?_, ?_, ?_, ?_⟩
  · intro h
    subst h
    decide
  · intro hnull hint
    cases b with
    | none => exact ⟨.syntaxError, rfl⟩
    | some v =>
      cases v with
      | null => exact absurd rfl hnull
      | bool x => exact ⟨.unmarshalTypeError, rfl⟩
      | string x => exact ⟨.unmarshalTypeError, rfl⟩
      | array x => exact ⟨.unmarshalTypeError, rfl⟩
      | object x => exact ⟨.unmarshalTypeError, rfl⟩
      | number lit =>
        cases hp : ParseInt lit with
        | none => exact ⟨.unmarshalTypeError, by simp [Time.UnmarshalJSON, jsonUnmarshalInt64, hp]⟩
        | some n =>
          obtain ⟨h1, h2, h3⟩ := integerLiteral_of_ParseInt lit n hp (hb lit rfl)
          exact absurd ⟨n, ⟨lit, rfl, h1⟩, h2, h3⟩ hint
  · rintro m ⟨lit, rfl, hi⟩ hlo hhi
    have hp := ParseInt_of_integerLiteral lit m hi hlo hhi
    refine ⟨⟨(timeUnix 0 (wrap64 (1000000 * m))).In .UTC⟩, ?_⟩
    simp only [Time.UnmarshalJSON, jsonUnmarshalInt64, hp]
  · rintro m ⟨lit, rfl, hi⟩ hlo hhi
    have hp := ParseInt_of_integerLiteral lit m hi (by unfold int64Min; omega)
      (by unfold int64Max; omega)
    exact UnmarshalJSON_number lit m hp hlo hhi

/-- C10, witness of the amended statement: the number token `123000` is
decoded to 123 s after the epoch in UTC, and a number token with a fraction
is refused. -/
theorem UnmarshalJSON_cases_witness :
    Time.UnmarshalJSON (some (.number "123000")) = .ok ⟨⟨123, 0, .UTC⟩⟩
      ∧ ∃ e, Time.UnmarshalJSON (some (.number "1.5")) = .error e :=
  ⟨(UnmarshalJSON_cases (some (.number "123000"))
      (fun lit h => by cases h; decide)).2.2.2 123000 ⟨"123000", rfl, by decide⟩
      (by decide) (by decide),
   (UnmarshalJSON_cases (some (.number "1.5")) (fun lit h => by cases h; decide)).2.1
      (by simp)
      (by
        rintro ⟨m, ⟨lit, h, hi⟩, _⟩
        cases h
        rw [integerLiteral_fraction "1.5" '.' (by decide) (Or.inl rfl)] at hi
        cases hi)⟩

/-- C10, as stated, fails on `null`: it is not a JSON integer, and
`Time.UnmarshalJSON` returns no error and gives the epoch. -/
theorem UnmarshalJSON_null :
    (¬ ∃ m, isJSONInteger (some .null) m)
      ∧ Time.UnmarshalJSON (some .null) = .ok ⟨⟨0, 0, .UTC⟩⟩
      ∧ ¬ ∃ e, Time.UnmarshalJSON (some .null) = .error e := by
  have h0 : Time.UnmarshalJSON (some .null) = .ok ⟨⟨0, 0, .UTC⟩⟩ := by decide
  refine ⟨?_, h0, ?_⟩
  · rintro ⟨m, lit, h, _⟩
    cases h
  · rintro ⟨e, h⟩
    rw [h0] at h
    cases h

/-! ## Lemmas: UTF-8 -/

/-- The code point of a character is a Unicode scalar value. -/
theorem char_toNat_valid (c : Char) :
    c.toNat < 55296 ∨ (57343 < c.toNat ∧ c.toNat < 1114112) := by
  have h := c.valid
  simpa [UInt32.isValidChar, Nat.isValidChar, Char.toNat] using h

/-- Decoding the encoding of a character gives the character back. -/
theorem decodeRune_utf8Bytes (c : Char) (rest : List Nat) :
    decodeRune (utf8Bytes c ++ rest) = (c.toNat, (utf8Bytes c).length) := by
  have hv := char_toNat_valid c
  unfold utf8Bytes
  simp only
  by_cases h1 : c.toNat < 128
  · simp [decodeRune, h1]
  · by_cases h2 : c.toNat < 2048
    · have a1 : ¬ (192 + c.toNat / 64 < 128) := by omega
      have a2 : 194 ≤ 192 + c.toNat / 64 ∧ 192 + c.toNat / 64 ≤ 223 := by omega
      have a3 : 128 ≤ 128 + c.toNat % 64 ∧ 128 + c.toNat % 64 ≤ 191 := by omega
      simp only [h1, h2, if_false, if_true, List.cons_append, List.nil_append, decodeRune, a1,
        a2, a3, and_self, List.length_cons, List.length_nil]
      rw [Prod.mk.injEq]
      exact ⟨by omega, by omega⟩
    · by_cases h3 : c.toNat < 65536
      · have a1 : ¬ (224 + c.toNat / 4096 < 128) := by omega
        have a2 : ¬ (194 ≤ 224 + c.toNat / 4096 ∧ 224 + c.toNat / 4096 ≤ 223) := by omega
        have a3 : 224 ≤ 224 + c.toNat / 4096 ∧ 224 + c.toNat / 4096 ≤ 239 := by omega
        have a4 : (if 224 + c.toNat / 4096 = 224 then 160 else 128) ≤ 128 + c.toNat / 64 % 64
            ∧ 128 + c.toNat / 64 % 64 ≤ (if 224 + c.toNat / 4096 = 237 then 159 else 191)
            ∧ 128 ≤ 128 + c.toNat % 64 ∧ 128 + c.toNat % 64 ≤ 191 := by
          refine ⟨?_, ?_, by omega, by omega⟩
          · split <;> omega
          · split <;> omega
        simp only [h1, h2, h3, if_false, if_true, List.cons_append, List.nil_append, decodeRune,
          a1, a2, a3, a4, and_self, List.length_cons, List.length_nil]
        rw [Prod.mk.injEq]
        exact ⟨by omega, by omega⟩
      · have a1 : ¬ (240 + c.toNat / 262144 < 128) := by omega
        have a2 : ¬ (194 ≤ 240 + c.toNat / 262144 ∧ 240 + c.toNat / 262144 ≤ 223) := by omega
        have a3 : ¬ (224 ≤ 240 + c.toNat / 262144 ∧ 240 + c.toNat / 262144 ≤ 239) := by omega
        have a4 : 240 ≤ 240 + c.toNat / 262144 ∧ 240 + c.toNat / 262144 ≤ 244 := by omega
        have a5 : (if 240 + c.toNat / 262144 = 240 then 144 else 128)
              ≤ 128 + c.toNat / 4096 % 64
            ∧ 128 + c.toNat / 4096 % 64 ≤ (if 240 + c.toNat / 262144 = 244 then 143 else 191)
            ∧ 128 ≤ 128 + c.toNat / 64 % 64 ∧ 128 + c.toNat / 64 % 64 ≤ 191
            ∧ 128 ≤ 128 + c.toNat % 64 ∧ 128 + c.toNat % 64 ≤ 191 := by
          refine ⟨?_, ?_, by omega, by omega, by omega, by omega⟩
          · split <;> omega
          · split <;> omega
        simp only [h1, h2, h3, if_false, List.cons_append, List.nil_append, decodeRune,
          a1, a2, a3, a4, a5, and_self, if_true, List.length_cons, List.length_nil]
        rw [Prod.mk.injEq]
        exact ⟨by omega, by omega⟩

/-- The encoding of a character is not empty. -/
theorem utf8Bytes_ne_nil (c : Char) : ∃ b bs, utf8Bytes c = b :: bs := by
  unfold utf8Bytes
  simp only
  split
  · exact ⟨_, _, rfl⟩
  · split
    · exact ⟨_, _, rfl⟩
    · split
      · exact ⟨_, _, rfl⟩
      · exact ⟨_, _, rfl⟩

/-- The text written for the UTF-8 bytes of characters is these characters. -/
theorem toValidText_flatMap (cs : List Char) :
    ∀ fuel, (cs.flatMap utf8Bytes).length ≤ fuel →
      toValidText fuel (cs.flatMap utf8Bytes) = cs := by
  induction cs with
  | nil =>
    intro fuel _
    cases fuel <;> simp [toValidText]
  | cons c cs ih =>
    intro fuel hf
    obtain ⟨b, bs, hb⟩ := utf8Bytes_ne_nil c
    have hd := decodeRune_utf8Bytes c (cs.flatMap utf8Bytes)
    simp only [List.flatMap_cons] at hf ⊢
    cases fuel with
    | zero =>
      rw [hb] at hf
      simp at hf
    | succ f =>
      have hlen : (cs.flatMap utf8Bytes).length ≤ f := by
        rw [hb] at hf
        simp only [List.cons_append, List.length_cons, List.length_append] at hf
        omega
      have hcons : utf8Bytes c ++ cs.flatMap utf8Bytes = b :: (bs ++ cs.flatMap utf8Bytes) := by
        rw [hb]
        rfl
      rw [hcons] at hd ⊢
      simp only [toValidText, hd]
      rw [← hcons, List.drop_left, ih f hlen, Char.ofNat_toNat]

/-- The text `encoding/json` writes for the bytes of a text is that text. -/
theorem jsonStringOf_stringBytes (s : String) : jsonStringOf (stringBytes s) = .string s := by
  simp only [jsonStringOf, stringBytes]
  rw [toValidText_flatMap s.data _ (le_refl _)]

/-! ## Accounts as JSON -/

/-- C2, as amended: for every Account `a` whose `ID` and `Name` are valid
UTF-8 (the bytes of the texts `idText`, `nameText`) and whose `ModifiedDate`
is the UTC time `epoch + m ms` with `-9223372036854 ≤ m ≤ 9223372036854`,
encoding `a` gives the object with the keys `id`, `name`, `modifiedDate` in
that order and `modifiedDate` written as the integer `m`, and decoding that
object (into any Account variable `a0`) gives `a` and no error. -/
theorem Account_json_roundtrip (a : Account) (idText nameText : String) (m : Int)
    (hid : a.ID = stringBytes idText) (hname : a.Name = stringBytes nameText)
    (hm : a.ModifiedDate = epochPlusMillis m)
    (hlo : -9223372036854 ≤ m) (hhi : m ≤ 9223372036854) (a0 : Account) :
    jsonMarshalAccount a = .ok (.object [("id", .string idText), ("name", .string nameText),
        ("modifiedDate", .number (FormatInt m))])
      ∧ jsonUnmarshalAccount (some (.object [("id", .string idText), ("name", .string nameText),
        ("modifiedDate", .number (FormatInt m))])) a0 = (a, none) := by
  have hmar := MarshalJSON_epochPlusMillis m hlo hhi
  have hp : ParseInt (FormatInt m) = some m :=
    ParseInt_FormatInt m (by unfold int64Min; omega) (by unfold int64Max; omega)
  have hun := UnmarshalJSON_number (FormatInt m) m hp hlo hhi
  have f1 : findField accountFieldNames "id" = some "id" := by decide
  have f2 : findField accountFieldNames "name" = some "name" := by decide
  have f3 : findField accountFieldNames "modifiedDate" = some "modifiedDate" := by decide
  obtain ⟨id, name, md⟩ := a
  simp only at hid hname hm
  subst hid hname hm
  constructor
  · simp only [jsonMarshalAccount, hmar, jsonStringOf_stringBytes]
  · simp [jsonUnmarshalAccount, decodeAccount, decodeAccountFields, decodeAccountField, f1, f2,
      f3, storeGoString, hun, Decoded.err]

/-- C2, witness of the amended statement: the account of the test,
`{"id":"abcd1234","name":"ABC Corp","modifiedDate":1414001420560}`, whose
timestamp is 1414001420.560 s after the epoch in UTC. -/
theorem Account_json_roundtrip_witness :
    epochPlusMillis 1414001420560 = ⟨⟨1414001420, 560000000, .UTC⟩⟩
      ∧ FormatInt 1414001420560 = "1414001420560"
      ∧ jsonMarshalAccount
          ⟨stringBytes "abcd1234", stringBytes "ABC Corp", epochPlusMillis 1414001420560⟩
        = .ok (.object [("id", .string "abcd1234"), ("name", .string "ABC Corp"),
            ("modifiedDate", .number (FormatInt 1414001420560))])
      ∧ jsonUnmarshalAccount (some (.object [("id", .string "abcd1234"),
            ("name", .string "ABC Corp"), ("modifiedDate", .number (FormatInt 1414001420560))]))
          zeroAccount
        = (⟨stringBytes "abcd1234", stringBytes "ABC Corp", epochPlusMillis 1414001420560⟩,
            none) :=
  ⟨by decide, by decide,
    Account_json_roundtrip
      ⟨stringBytes "abcd1234", stringBytes "ABC Corp", epochPlusMillis 1414001420560⟩
      "abcd1234" "ABC Corp" 1414001420560 rfl rfl rfl (by decide) (by decide) zeroAccount⟩

/-- C2, as stated, fails for the Account whose `ID` is the single byte `0xff`
(not valid UTF-8) and whose `ModifiedDate` is the epoch: encoding writes the
`id` as U+FFFD, and decoding gives the `ID` `ef bf bd`, another Account.  It
also fails for the zero Account: its `ModifiedDate` is the UTC time
`epoch + m ms` for `m = -62135596800000` (year 1), and encoding writes
`modifiedDate` as `-6795364578871`, because the nanosecond count overflows. -/
theorem Account_json_not_identity :
    jsonMarshalAccount ⟨[255], [], epochPlusMillis 0⟩
        = .ok (.object [("id", .string runeErrorText), ("name", .string ""),
            ("modifiedDate", .number "0")])
      ∧ jsonUnmarshalAccount (some (.object [("id", .string runeErrorText), ("name", .string ""),
            ("modifiedDate", .number "0")])) zeroAccount
          = (⟨[239, 191, 189], [], epochPlusMillis 0⟩, none)
      ∧ (⟨[239, 191, 189], [], epochPlusMillis 0⟩ : Account) ≠ ⟨[255], [], epochPlusMillis 0⟩
      ∧ zeroAccount.ModifiedDate = epochPlusMillis (-62135596800000)
      ∧ jsonMarshalAccount zeroAccount = .ok (.object [("id", .string ""), ("name", .string ""),
          ("modifiedDate", .number "-6795364578871")])
      ∧ jsonMarshalAccount zeroAccount ≠ .ok (.object [("id", .string ""), ("name", .string ""),
          ("modifiedDate", .number (FormatInt (-62135596800000)))]) := by
  have h0 : (epochPlusMillis 0).MarshalJSON = .ok "0" := by decide
  have h1 : String.mk (toValidText 1 [255]) = runeErrorText := by decide
  have h2 : String.mk (toValidText 0 []) = "" := by decide
  have h : zeroAccount.ModifiedDate.MarshalJSON = .ok "-6795364578871" := by decide
  have hz : zeroAccount.ID = [] ∧ zeroAccount.Name = [] := ⟨rfl, rfl⟩
  have hne : ¬ ("-6795364578871" = FormatInt (-62135596800000)) := by decide
  refine ⟨?_, by decide, by decide, by decide, ?_, ?_⟩
  · simp only [jsonMarshalAccount, h0, jsonStringOf, List.length_cons, List.length_nil, h1, h2]
  · simp only [jsonMarshalAccount, h, jsonStringOf, hz.1, hz.2, List.length_nil, h2]
  · simp only [jsonMarshalAccount, h, jsonStringOf, hz.1, hz.2, List.length_nil, h2]
    intro heq
    injection heq with heq
    injection heq with heq
    simp only [List.cons.injEq, Prod.mk.injEq, JSON.number.injEq] at heq
    exact hne heq.2.2.1.2

/-! ## Requests -/

/-- The values `query.Values` computes for an `AccountsListOptions` are the
ones the specification gives. -/
theorem queryValues_accounts (opt : AccountsListOptions) :
    queryValues opt.toOpt = some (expectedQuery opt) := by
  obtain ⟨ids, start, limit⟩ := opt
  have k1 : ¬ ("_ids" = "_start") := by decide
  have k2 : ¬ ("_ids" = "_limit") := by decide
  have k3 : ¬ ("_start" = "_limit") := by decide
  simp only [queryValues, AccountsListOptions.toOpt, ListOptions.fields, reflectValue,
    List.foldl, reflectField, isEmptyValue, expectedQuery, Bool.true_and, Bool.false_eq_true,
    if_false]
  by_cases h1 : ids = [] <;> by_cases h2 : start = 0 <;> by_cases h3 : limit = 0 <;>
    simp [h1, h2, h3, Values.Add, k1, k2, k3]

/-- `NewRequest("GET", "accounts", opt, nil)` returns a request, whose raw
query is the encoding of the values of `opt`. -/
theorem NewRequest_accounts (lib : Lib) (c : Client) (opt : AccountsListOptions) :
    ∃ req, c.NewRequest lib "GET" "accounts" (some opt.toOpt) none = .ok req
      ∧ req.URL.RawQuery = (expectedQuery opt).Encode := by
  have hq := queryValues_accounts opt
  have hv : validMethod "GET" = true := by decide
  have hm : ¬ ("GET" = "") := by decide
  have key : ∀ r, c.NewRequest lib "GET" "accounts" (some opt.toOpt) none = r →
      ∃ req, r = .ok req ∧ req.URL.RawQuery = (expectedQuery opt).Encode := by
    intro r hr
    simp only [Client.NewRequest, hq, httpNewRequest, hv, hm, if_false, if_true] at hr
    subst hr
    exact ⟨_, rfl, rfl⟩
  exact key _ rfl

/-- C3: for every options value `opt`, the request that
`NewRequest("GET", "accounts", opt, nil)` returns has exactly these query
parameters: the values `query.Values` computes are `_ids` (present iff the
ID list is not empty, the IDs joined by commas), `_start` and `_limit`
(present iff not 0, in decimal), and the raw query of the request URL is
their encoding; it is empty when the ID list is empty and `Start = Limit = 0`;
with IDs `[x, y]`, `Start = 1`, `Limit = 1` the values are `_ids = x,y`,
`_start = 1`, `_limit = 1`. -/
theorem NewRequest_query (lib : Lib) (c : Client) (opt : AccountsListOptions) (req : Request)
    (h : c.NewRequest lib "GET" "accounts" (some opt.toOpt) none = .ok req) :
    queryValues opt.toOpt = some (expectedQuery opt)
      ∧ req.URL.RawQuery = (expectedQuery opt).Encode
      ∧ (opt.IDs = [] → opt.ListOptions.Start = 0 → opt.ListOptions.Limit = 0 →
          req.URL.RawQuery = "")
      ∧ (∀ x y : String, opt = ⟨[x, y], ⟨1, 1⟩⟩ → expectedQuery opt
          = [("_ids", [x ++ "," ++ y]), ("_start", ["1"]), ("_limit", ["1"])]) := by
  obtain ⟨req2, h2, h3⟩ := NewRequest_accounts lib c opt
  rw [h] at h2
  injection h2 with h2
  subst h2
  refine ⟨queryValues_accounts opt, h3, ?_, ?_⟩
  · intro h1 hs hl
    rw [h3]
    obtain ⟨ids, start, limit⟩ := opt
    simp only at h1 hs hl
    subst h1 hs hl
    decide
  · intro x y hxy
    subst hxy
    simp [expectedQuery, String.intercalate, String.intercalate.go]
    decide

/-- C3, witness: for a fresh client, IDs `[a, b]`, `Start = 1`, `Limit = 1`
give the raw query `_ids=a%2Cb&_limit=1&_start=1`, and the empty options give
no query. -/
theorem NewRequest_query_witness :
    (∃ req, (NewClient exampleLib none ⟨"key", "secret"⟩).NewRequest exampleLib "GET"
        "accounts" (some (AccountsListOptions.toOpt ⟨["a", "b"], ⟨1, 1⟩⟩)) none = .ok req
      ∧ req.URL.RawQuery = "_ids=a%2Cb&_limit=1&_start=1")
    ∧ (∃ req, (NewClient exampleLib none ⟨"key", "secret"⟩).NewRequest exampleLib "GET"
        "accounts" (some (AccountsListOptions.toOpt ⟨[], ⟨0, 0⟩⟩)) none = .ok req
      ∧ req.URL.RawQuery = "") := by
  constructor
  · obtain ⟨req, hreq, _⟩ := NewRequest_accounts exampleLib
      (NewClient exampleLib none ⟨"key", "secret"⟩) ⟨["a", "b"], ⟨1, 1⟩⟩
    refine ⟨req, hreq, ?_⟩
    rw [(NewRequest_query exampleLib _ ⟨["a", "b"], ⟨1, 1⟩⟩ req hreq).2.1]
    decide
  · obtain ⟨req, hreq, _⟩ := NewRequest_accounts exampleLib
      (NewClient exampleLib none ⟨"key", "secret"⟩) ⟨[], ⟨0, 0⟩⟩
    exact ⟨req, hreq, (NewRequest_query exampleLib _ ⟨[], ⟨0, 0⟩⟩ req hreq).2.2.1 rfl rfl rfl⟩

/-- What `NewRequest` returns when it returns a request: the request of
`http.NewRequest` with the two headers set. -/
theorem NewRequest_header (lib : Lib) (c : Client) (method urlPath : String)
    (opt : Option OptValue) (body : Option (Option String)) (req : Request)
    (h : c.NewRequest lib method urlPath opt body = .ok req) :
    req.Header = Values.Add (Values.Set [] "Authorization"
      ("Basic " ++ base64EncodeToString (c.cred.APIKey ++ ":" ++ c.cred.APISecret)))
      "User-Agent" c.UserAgent := by
  unfold Client.NewRequest at h
  simp only at h
  split at h
  · cases h
  · split at h
    · cases h
    · split at h
      · cases h
      · rename_i r hreq
        unfold httpNewRequest at hreq
        by_cases hv : validMethod (if method = "" then "GET" else method) = true
        · simp only [hv, if_true] at hreq
          injection hreq with hreq
          injection h with h
          subst hreq
          subst h
          rfl
        · simp only [hv, if_false] at hreq
          cases hreq

/-- C7: every request `NewRequest` returns carries the `Authorization`
header `Basic ` followed by the base64 encoding of `APIKey:APISecret`, and
exactly one `User-Agent` header, whose value is the client's `UserAgent`; a
client fresh from `NewClient` has the `UserAgent` `go-relateiq/0.0.1`. -/
theorem NewRequest_auth_userAgent (lib : Lib) (c : Client) (method urlPath : String)
    (opt : Option OptValue) (body : Option (Option String)) (req : Request)
    (h : c.NewRequest lib method urlPath opt body = .ok req) :
    Values.get req.Header "Authorization"
        = ["Basic " ++ base64EncodeToString (c.cred.APIKey ++ ":" ++ c.cred.APISecret)]
      ∧ Values.get req.Header "User-Agent" = [c.UserAgent]
      ∧ ∀ hc cred, (NewClient lib hc cred).UserAgent = "go-relateiq/0.0.1" := by
  have k1 : ¬ ("Authorization" = "User-Agent") := by decide
  rw [NewRequest_header lib c method urlPath opt body req h]
  refine ⟨?_, ?_, ?_⟩
  · simp [Values.Set, Values.Add, Values.get, k1]
  · simp [Values.Set, Values.Add, Values.get, k1]
  · intro hc cred
    simp only [NewClient]
    decide

/-- C7, witness: the request a fresh client with the credentials `key`,
`secret` builds for `GET accounts`. -/
theorem NewRequest_auth_userAgent_witness :
    ∃ req, (NewClient exampleLib none ⟨"key", "secret"⟩).NewRequest exampleLib "GET" "accounts"
        (some (AccountsListOptions.toOpt ⟨["a", "b"], ⟨1, 1⟩⟩)) none = .ok req
      ∧ Values.get req.Header "Authorization" = ["Basic a2V5OnNlY3JldA=="]
      ∧ Values.get req.Header "User-Agent" = ["go-relateiq/0.0.1"]
      ∧ req.URL.RawQuery = "_ids=a%2Cb&_limit=1&_start=1" := by
  have key : ∀ r, (NewClient exampleLib none ⟨"key", "secret"⟩).NewRequest exampleLib "GET"
      "accounts" (some (AccountsListOptions.toOpt ⟨["a", "b"], ⟨1, 1⟩⟩)) none = r →
      (∃ req, r = .ok req) := by
    intro r hr
    have hv : validMethod "GET" = true := by decide
    have hm : ¬ ("GET" = "") := by decide
    simp only [Client.NewRequest, queryValues, AccountsListOptions.toOpt, httpNewRequest, hv,
      hm, if_false, if_true] at hr
    subst hr
    exact ⟨_, rfl⟩
  obtain ⟨req, hreq⟩ := key _ rfl
  have h := NewRequest_auth_userAgent exampleLib _ _ _ _ _ req hreq
  refine ⟨req, hreq, ?_, ?_, ?_⟩
  · rw [h.1]
    decide
  · rw [h.2.1]
    decide
  · have hq := NewRequest_accounts exampleLib (NewClient exampleLib none ⟨"key", "secret"⟩)
      ⟨["a", "b"], ⟨1, 1⟩⟩
    obtain ⟨req2, h2, h3⟩ := hq
    rw [hreq] at h2
    injection h2 with h2
    subst h2
    rw [h3]
    decide

/-! ## Responses and errors -/

/-- C4: for every response `r`, `CheckResponse(r)` returns no error if and
only if `200 ≤ r.StatusCode ≤ 299`; for every other status code it returns
an `*ErrorResponse` (a non-nil error). -/
theorem CheckResponse_nil_iff (r : Response) :
    ((CheckResponse r).1 = none ↔ (200 ≤ r.StatusCode ∧ r.StatusCode ≤ 299))
      ∧ (¬ (200 ≤ r.StatusCode ∧ r.StatusCode ≤ 299) → ∃ e, (CheckResponse r).1 = some e) := by
  by_cases h : 200 ≤ r.StatusCode ∧ r.StatusCode ≤ 299
  · simp [CheckResponse, h]
  · simp [CheckResponse, h]

/-- C4, witness: a 204 response is no error, a 500 response is one. -/
theorem CheckResponse_nil_iff_witness :
    (CheckResponse ⟨204, .empty⟩).1 = none ∧ ∃ e, (CheckResponse ⟨500, .malformed⟩).1 = some e :=
  ⟨(CheckResponse_nil_iff ⟨204, .empty⟩).1.2 (by decide),
   (CheckResponse_nil_iff ⟨500, .malformed⟩).2 (by decide)⟩

/-- C5: when the transport answers the request with a status `s` outside
200-299 and the JSON body `{"Message": msg}`, `Do` returns that response
(not nil) together with an `*ErrorResponse` that refers to it, whose
`Message` is `msg` and whose `HTTPStatusCode()` is `s`. -/
theorem Do_api_error {α : Type} (c : Client) (req : Request) (v : Option (Target α)) (s : Int)
    (msg : String) (hs : ¬ (200 ≤ s ∧ s ≤ 299))
    (ht : c.httpClient req = .ok ⟨s, .value (.object [("Message", .string msg)])⟩) :
    (c.Do req v).resp = some ⟨s, .value (.object [("Message", .string msg)])⟩
      ∧ (c.Do req v).err = some (.api ⟨.given, msg⟩)
      ∧ ErrorResponse.HTTPStatusCode ⟨.given, msg⟩
          ⟨s, .value (.object [("Message", .string msg)])⟩ = .returned s := by
  have f : findField ["Response", "Message"] "Message" = some "Message" := by decide
  have hc : CheckResponse ⟨s, .value (.object [("Message", .string msg)])⟩
      = (some ⟨.given, msg⟩, ⟨s, .value (.object [("Message", .string msg)])⟩) := by
    simp [CheckResponse, hs, BodyText.whole, jsonUnmarshalErrorResponse, decodeErrorField, f,
      storeString]
  refine ⟨?_, ?_, rfl⟩
  · simp only [Client.Do, ht, hc]
  · simp only [Client.Do, ht, hc]

/-- C5, witness: status 404 with the body `{"Message":"not found"}`. -/
theorem Do_api_error_witness :
    ((NewClient exampleLib (some (fun _ =>
          .ok ⟨404, .value (.object [("Message", .string "not found")])⟩)) ⟨"k", "s"⟩).Do
          ⟨"GET", ⟨"https", "api.relateiq.com", "/v2/accounts", ""⟩, [], ""⟩
          (none : Option (Target Unit))).resp
        = some ⟨404, .value (.object [("Message", .string "not found")])⟩
      ∧ ((NewClient exampleLib (some (fun _ =>
          .ok ⟨404, .value (.object [("Message", .string "not found")])⟩)) ⟨"k", "s"⟩).Do
          ⟨"GET", ⟨"https", "api.relateiq.com", "/v2/accounts", ""⟩, [], ""⟩
          (none : Option (Target Unit))).err = some (.api ⟨.given, "not found"⟩)
      ∧ ErrorResponse.HTTPStatusCode ⟨.given, "not found"⟩
          ⟨404, .value (.object [("Message", .string "not found")])⟩ = .returned 404 :=
  Do_api_error _ _ none 404 "not found" (by decide) rfl

/-- For a status outside 200-299 and a body that is not exactly one JSON
value (empty, malformed, or followed by further bytes), `CheckResponse`
returns an error that refers to the response, with an empty message, and
leaves the response as it was. -/
theorem CheckResponse_unparsed_body (r : Response) (hs : ¬ (200 ≤ r.StatusCode ∧ r.StatusCode ≤ 299))
    (hb : r.Body.whole = none) : CheckResponse r = (some ⟨.given, ""⟩, r) := by
  simp [CheckResponse, hs, hb, jsonUnmarshalErrorResponse]

/-- C6, at the failing inputs: for a 404 response with the body
`{"Response":null}` the error returned holds a nil `Response`, and
`HTTPStatusCode()` panics; with the body `{"Response":{"StatusCode":200}}`
the status code of the response itself is overwritten, and
`HTTPStatusCode()` returns 200. -/
theorem CheckResponse_body_overwrites :
    (CheckResponse ⟨404, .value (.object [("Response", .null)])⟩).1 = some ⟨.nil, ""⟩
      ∧ (∀ r, ErrorResponse.HTTPStatusCode ⟨.nil, ""⟩ r = .panicked)
      ∧ (CheckResponse ⟨404, .value (.object [("Response",
          .object [("StatusCode", .number "200")])])⟩).1 = some ⟨.given, ""⟩
      ∧ (CheckResponse ⟨404, .value (.object [("Response",
          .object [("StatusCode", .number "200")])])⟩).2.StatusCode = 200
      ∧ ErrorResponse.HTTPStatusCode ⟨.given, ""⟩ (CheckResponse ⟨404, .value (.object
          [("Response", .object [("StatusCode", .number "200")])])⟩).2 = .returned 200 := by
  refine ⟨by decide, fun _ => rfl, by decide, by decide, ?_⟩
  have h : (CheckResponse ⟨404, .value (.object [("Response",
      .object [("StatusCode", .number "200")])])⟩).2.StatusCode = 200 := by decide
  simp only [ErrorResponse.HTTPStatusCode, h]

/-- C8, at the failing input: when the transport answers with status 200 and
the body `null`, `Do` sets `list` to nil and returns no error, and `List`
panics on `list.Objects`. -/
theorem List_panics_on_null (lib : Lib) (cred : Credentials) (opt : AccountsListOptions) :
    AccountsService.List lib
      ⟨NewClient lib (some (fun _ => .ok ⟨200, .value .null⟩)) cred⟩ opt = .panicked := by
  obtain ⟨req, hreq, _⟩ := NewRequest_accounts lib
    (NewClient lib (some (fun _ => .ok ⟨200, .value .null⟩)) cred) opt
  have hc : CheckResponse ⟨200, .value .null⟩ = (none, ⟨200, .value .null⟩) := by
    simp [CheckResponse]
  simp only [AccountsService.List, hreq]
  simp only [Client.Do, NewClient, hc, decoderDecode, decodeEnvelopePtr]

end Relateiq
